import Mathlib

/-!
Shallow embedding of the invoice payment poller of contractor-mgmt
(cmswww). The poller keeps an in-memory map `polledPayments` from invoice
token to payment-polling metadata, seeds it from the database at startup,
and runs a background loop that snapshots the map, reconciles every entry
against the database and a blockchain transaction oracle, and removes
settled/expired entries.

Timestamps are Unix seconds modelled as `Int`; amounts are `uint64` values
on which the code performs no arithmetic, modelled as `Nat`. Database and
oracle calls are modelled as response functions in an environment record
`Env` (one reconciliation pass sees a fixed set of responses; tokens in a
Go map snapshot are unique, and the pass never re-reads a token it wrote,
so fixed response functions are adequate). Every effect the code performs
(invoice fetch, oracle query, invoice update, sleep) is recorded in an
event trace so that claims about calls made or skipped can be stated.
-/

set_option autoImplicit false

namespace CmsPoller

/-- Polling metadata kept per invoice token, mirroring the Go struct
`polledPayment` (address, amount, txNotBefore, pollExpiry). -/
structure polledPayment where
  address : String
  amount : Nat
  txNotBefore : Int
  pollExpiry : Int
  deriving DecidableEq, Repr

/-- Invoice status enum `v1.InvoiceStatusT`; the poller only distinguishes
`paid` from everything else. -/
inductive InvoiceStatusT where
  | invalid
  | notFound
  | notReviewed
  | unreviewedChanges
  | rejected
  | approved
  | paid
  deriving DecidableEq, Repr

/-- One payment row of a database invoice (`database.InvoicePayment`):
the fields the poller reads. -/
structure InvoicePayment where
  address : String
  amount : Nat
  txNotBefore : Int
  pollExpiry : Int
  deriving DecidableEq, Repr

/-- A database invoice (`database.Invoice`): the fields the poller reads
or writes. -/
structure Invoice where
  token : String
  status : InvoiceStatusT
  payments : List InvoicePayment
  deriving DecidableEq, Repr

/-- Database errors: the distinguished shutdown sentinel
`database.ErrShutdown` versus any other (transient) error. -/
inductive DbErr where
  | shutdown
  | other
  deriving DecidableEq, Repr

/-- The Go function `pollHasExpired` is
`time.Now().After(time.Unix(pollExpiry, 0))`: the current time is
strictly after the expiry timestamp. -/
def pollHasExpired (now pollExpiry : Int) : Bool :=
  pollExpiry < now

/-- The in-memory pool `c.polledPayments`: a map from invoice token to
`polledPayment`, represented as an association list with unique keys
(the Go map invariant). -/
abbrev Pool := List (String × polledPayment)

/-- Map lookup: the value bound to a key, if any. -/
def mapGet (m : Pool) (k : String) : Option polledPayment :=
  (m.find? (fun p => p.1 = k)).map Prod.snd

/-- Map update `m[k] = v`: binds `k` to `v`, overwriting any previous
binding, leaving every other key unchanged. -/
def mapInsert (m : Pool) (k : String) (v : polledPayment) : Pool :=
  (k, v) :: m.filter (fun p => ¬ (p.1 = k))

/-- Map deletion `delete(m, k)`. -/
def mapDelete (m : Pool) (k : String) : Pool :=
  m.filter (fun p => ¬ (p.1 = k))

/-- Conversion from a database invoice payment row to the in-memory
polling entry, performed inline by `addInvoiceForPolling`. -/
def toPolledPayment (ip : InvoicePayment) : polledPayment :=
  { address := ip.address
    amount := ip.amount
    txNotBefore := ip.txNotBefore
    pollExpiry := ip.pollExpiry }

/-- The Go function `addInvoiceForPolling` stores an invoice payment's
info in the pool under the invoice token
(`c.polledPayments[token] = polledPayment{...}`). -/
def addInvoiceForPolling (m : Pool) (token : String) (ip : InvoicePayment) : Pool :=
  mapInsert m token (toPolledPayment ip)

/-- Inner loop of `addInvoicesForPolling` over one invoice's payments:
skip a payment whose poll expiry has passed, otherwise insert it under
the invoice's token. -/
def addPaymentsLoop (now : Int) (token : String) : List InvoicePayment → Pool → Pool
  | [], acc => acc
  | ip :: rest, acc =>
      if pollHasExpired now ip.pollExpiry then addPaymentsLoop now token rest acc
      else addPaymentsLoop now token rest (addInvoiceForPolling acc token ip)

/-- Outer loop of `addInvoicesForPolling` over the invoices returned by
the database. -/
def addInvoicesLoop (now : Int) : List Invoice → Pool → Pool
  | [], acc => acc
  | invoice :: rest, acc =>
      addInvoicesLoop now rest (addPaymentsLoop now invoice.token invoice.payments acc)

/-- The Go function `addInvoicesForPolling` seeds the pool from the
invoices returned by `c.db.GetInvoices`: for each invoice, for each of
its payments, skip the payment if its poll expiry has passed, otherwise
insert it under the invoice's token. A database error is propagated and
nothing is inserted. -/
def addInvoicesForPolling (now : Int) (dbRes : Except DbErr (List Invoice))
    (pool : Pool) : Except DbErr Pool :=
  match dbRes with
  | .error e => .error e
  | .ok invoices => .ok (addInvoicesLoop now invoices pool)

/-- Loop of `createPolledPaymentsCopy`:
`for k, v := range c.polledPayments { copy[k] = v }`. -/
def copyLoop : List (String × polledPayment) → Pool → Pool
  | [], acc => acc
  | p :: rest, acc => copyLoop rest (mapInsert acc p.1 p.2)

/-- The Go function `createPolledPaymentsCopy` builds a fresh map holding
every binding of the pool. -/
def createPolledPaymentsCopy (m : Pool) : Pool :=
  copyLoop m []

/-- The Go function `removeInvoicesFromPolling` deletes every listed
token from the pool. -/
def removeInvoicesFromPolling : Pool → List String → Pool
  | pool, [] => pool
  | pool, token :: rest => removeInvoicesFromPolling (mapDelete pool token) rest

/-- The external environment one reconciliation pass runs against:
the current time, the database responses (`GetInvoiceByToken`,
`UpdateInvoice`), the transaction oracle `util.FetchTxWithBlockExplorers`
(returns a transaction id, empty when no satisfying transaction exists),
and the configured `MinConfirmationsRequired`. -/
structure Env where
  now : Int
  getInvoiceByToken : String → Except DbErr Invoice
  fetchTx : String → Nat → Int → Nat → Except Unit String
  updateInvoice : Invoice → Option DbErr
  minConfirmations : Nat

instance instDecEqExcept {ε α : Type} [DecidableEq ε] [DecidableEq α] :
    DecidableEq (Except ε α) := fun a b =>
  match a, b with
  | .error e, .error f =>
      decidable_of_iff (e = f) ⟨fun h => by rw [h], fun h => by cases h; rfl⟩
  | .error _, .ok _ => isFalse (fun h => by cases h)
  | .ok _, .error _ => isFalse (fun h => by cases h)
  | .ok x, .ok y =>
      decidable_of_iff (x = y) ⟨fun h => by rw [h], fun h => by cases h; rfl⟩

/-- Observable effects of processing one snapshot entry, with the
response each call received. -/
inductive Event where
  | getInvoice (token : String) (res : Except DbErr Invoice)
  | fetchTx (address : String) (amount : Nat) (txNotBefore : Int)
      (minConf : Nat) (res : Except Unit String)
  | updateInvoice (inv : Invoice) (res : Option DbErr)
  | sleep
  deriving DecidableEq, Repr

/-- Result of the loop body of `checkForInvoicePayments` for one entry:
the events it performed, whether the pass continues (`false` exactly when
the database reported shutdown), and the tokens it appended to
`tokensToRemove` (empty or a single token). -/
structure EntryResult where
  events : List Event
  cont : Bool
  removed : List String
  deriving DecidableEq, Repr

/-- The loop body of `checkForInvoicePayments` for one `(token, entry)`
pair of the snapshot:
fetch the invoice (shutdown stops the pass, other errors skip the entry);
an already-paid invoice is marked for removal with no oracle call; an
expired entry is marked for removal (appending the fetched invoice's
token) with no oracle call; otherwise query the oracle (errors skip);
a non-empty transaction id updates the invoice to paid in the database
(shutdown stops the pass, other errors skip) and marks the token for
removal. The Go `continue` statements skip the trailing
`time.Sleep(pollCheckGap)`, so a sleep happens only on the paths that
fall through the bottom of the loop body. -/
def processEntry (env : Env) (token : String) (pp : polledPayment) : EntryResult :=
  match env.getInvoiceByToken token with
  | .error e =>
      if e = DbErr.shutdown then
        { events := [.getInvoice token (.error e)], cont := false, removed := [] }
      else
        { events := [.getInvoice token (.error e)], cont := true, removed := [] }
  | .ok invoice =>
      let fetched : Event := .getInvoice token (.ok invoice)
      if invoice.status = InvoiceStatusT.paid then
        { events := [fetched], cont := true, removed := [token] }
      else if pollHasExpired env.now pp.pollExpiry then
        { events := [fetched], cont := true, removed := [invoice.token] }
      else
        match env.fetchTx pp.address pp.amount pp.txNotBefore env.minConfirmations with
        | .error e =>
            { events := [fetched,
                .fetchTx pp.address pp.amount pp.txNotBefore env.minConfirmations (.error e)],
              cont := true, removed := [] }
        | .ok tx =>
            let queried : Event :=
              .fetchTx pp.address pp.amount pp.txNotBefore env.minConfirmations (.ok tx)
            if tx ≠ "" then
              let paidInvoice := { invoice with status := InvoiceStatusT.paid }
              match env.updateInvoice paidInvoice with
              | some e =>
                  if e = DbErr.shutdown then
                    { events := [fetched, queried, .updateInvoice paidInvoice (some e)],
                      cont := false, removed := [] }
                  else
                    { events := [fetched, queried, .updateInvoice paidInvoice (some e)],
                      cont := true, removed := [] }
              | none =>
                  { events := [fetched, queried, .updateInvoice paidInvoice none, .sleep],
                    cont := true, removed := [token] }
            else
              { events := [fetched, queried, .sleep], cont := true, removed := [] }

/-- The Go function `checkForInvoicePayments` runs the loop body over every snapshot entry,
accumulating `tokensToRemove`; when a shutdown is observed the function
returns `(false, nil)` immediately, discarding every token collected so
far and never touching the remaining entries. -/
def checkForInvoicePayments (env : Env) : List (String × polledPayment) → Bool × List String
  | [] => (true, [])
  | (token, pp) :: rest =>
      let r := processEntry env token pp
      if r.cont then
        match checkForInvoicePayments env rest with
        | (true, toks) => (true, r.removed ++ toks)
        | (false, _) => (false, [])
      else
        (false, [])

/-- One step of the `checkForPayments` loop per unit of fuel: snapshot the
pool, reconcile, and either stop (returning with the pool untouched) or
apply the removals, sleep, and run the next cycle against the next cycle's
environment. Returns the final pool and `false` when the loop returned
(shutdown), `true` when fuel ran out with the loop still running. -/
def checkForPayments (envs : Nat → Env) : Nat → Pool → Pool × Bool
  | 0, pool => (pool, true)
  | fuel + 1, pool =>
      let snap := createPolledPaymentsCopy pool
      match checkForInvoicePayments (envs 0) snap with
      | (true, toks) =>
          checkForPayments (fun i => envs (i + 1)) fuel
            (removeInvoicesFromPolling pool toks)
      | (false, _) => (pool, false)

/-- An environment is store-consistent when every successfully fetched
invoice carries the token it was fetched by (the SQL query selects on
`i.token = ?`). -/
def WellBehavedStore (env : Env) : Prop :=
  ∀ t inv, env.getInvoiceByToken t = .ok inv → inv.token = t

/-- An entry triggers the shutdown exit of the pass exactly when its
invoice fetch returns the shutdown sentinel, or its settlement write does:
the fetch succeeded on a not-yet-paid invoice, the entry had not expired,
the oracle returned a non-empty transaction id, and `UpdateInvoice`
returned the shutdown sentinel. -/
def triggersShutdown (env : Env) (token : String) (pp : polledPayment) : Bool :=
  match env.getInvoiceByToken token with
  | .error e => e = DbErr.shutdown
  | .ok invoice =>
      if invoice.status = InvoiceStatusT.paid then false
      else if pollHasExpired env.now pp.pollExpiry then false
      else
        match env.fetchTx pp.address pp.amount pp.txNotBefore env.minConfirmations with
        | .error _ => false
        | .ok tx =>
            if tx = "" then false
            else env.updateInvoice { invoice with status := InvoiceStatusT.paid }
                   = some DbErr.shutdown

/-! Concrete sample data used to instantiate the theorems below. -/

/-- Sample polling entry, the spec's scenario entry
`{token "abc", address "A1", expectedAmount 500, notBefore 1000,
expiry 9999999999}`. -/
def ppA : polledPayment :=
  { address := "A1", amount := 500, txNotBefore := 1000, pollExpiry := 9999999999 }

/-- Sample polling entry whose poll expiry (10) lies in the past. -/
def ppExpired : polledPayment :=
  { address := "A1", amount := 500, txNotBefore := 1000, pollExpiry := 10 }

/-- Sample invoice payment row matching `ppA`. -/
def ipA : InvoicePayment :=
  { address := "A1", amount := 500, txNotBefore := 1000, pollExpiry := 9999999999 }

/-- Sample invoice payment row whose poll expiry (10) lies in the past. -/
def ipExpired : InvoicePayment :=
  { address := "A2", amount := 700, txNotBefore := 1000, pollExpiry := 10 }

/-- Sample approved (not yet paid) invoice with token "abc". -/
def invA : Invoice :=
  { token := "abc", status := InvoiceStatusT.approved, payments := [ipA] }

/-- Sample invoice with token "abc" already marked paid. -/
def invPaidA : Invoice :=
  { token := "abc", status := InvoiceStatusT.paid, payments := [ipA] }

/-- Sample invoice with token "exp" whose only payment row has expired. -/
def invExp : Invoice :=
  { token := "exp", status := InvoiceStatusT.approved, payments := [ipExpired] }

/-- Environment at time 2000 where the store knows invoice "abc"
(approved), the oracle reports transaction "txid123", and updates
succeed. -/
def envSettle : Env :=
  { now := 2000
    getInvoiceByToken := fun t => if t = "abc" then .ok invA else .error DbErr.other
    fetchTx := fun _ _ _ _ => .ok "txid123"
    updateInvoice := fun _ => none
    minConfirmations := 2 }

/-- Like `envSettle` but the oracle reports no satisfying transaction. -/
def envPending : Env :=
  { envSettle with fetchTx := fun _ _ _ _ => .ok "" }

/-- Environment whose store reports the shutdown sentinel on every invoice
fetch. -/
def envDbDown : Env :=
  { envSettle with getInvoiceByToken := fun _ => .error DbErr.shutdown }

/-- Environment whose store reports a transient error on every invoice
fetch. -/
def envFetchErr : Env :=
  { envSettle with getInvoiceByToken := fun _ => .error DbErr.other }

/-- Like `envSettle` but invoice "abc" is already marked paid. -/
def envAlreadyPaid : Env :=
  { envSettle with
      getInvoiceByToken := fun t => if t = "abc" then .ok invPaidA else .error DbErr.other }

/-- Like `envSettle` but `UpdateInvoice` reports the shutdown sentinel. -/
def envUpdateDown : Env :=
  { envSettle with updateInvoice := fun _ => some DbErr.shutdown }

/-- Like `envSettle` but observed at time 9999999999, exactly the poll
expiry second of `ppA`. -/
def envEdge : Env :=
  { envSettle with now := 9999999999 }

/-! ### Map lemmas -/

theorem find?_filter_ne (k k' : String) (hne : k' ≠ k) (m : Pool) :
    (m.filter (fun p => ¬ (p.1 = k))).find? (fun p => p.1 = k')
      = m.find? (fun p => p.1 = k') := by
  rw [List.find?_filter]
  congr 1
  funext a
  by_cases h : a.1 = k'
  · have hk : ¬ (a.1 = k) := by rw [h]; exact hne
    simp [h, hk, hne]
  · simp [h]

theorem mapGet_cons_ne {q : String × polledPayment} {rest : Pool} {k : String}
    (h : ¬ (q.1 = k)) : mapGet (q :: rest) k = mapGet rest k := by
  unfold mapGet
  rw [List.find?_cons_of_neg _ (by simpa using h)]

theorem mapGet_cons_self {k : String} {v : polledPayment} {rest : Pool} :
    mapGet ((k, v) :: rest) k = some v := by
  unfold mapGet
  rw [List.find?_cons_of_pos _ (by simp)]
  rfl

theorem mapGet_mapInsert (m : Pool) (k k' : String) (v : polledPayment) :
    mapGet (mapInsert m k v) k' = if k' = k then some v else mapGet m k' := by
  by_cases h : k' = k
  · subst h
    rw [if_pos rfl]
    exact mapGet_cons_self
  · have h' : ¬ (k = k') := fun hh => h hh.symm
    rw [if_neg h]
    unfold mapInsert
    rw [mapGet_cons_ne (by simpa using h')]
    unfold mapGet
    rw [find?_filter_ne k k' h m]

theorem mapGet_eq_none_iff {m : Pool} {k : String} :
    mapGet m k = none ↔ k ∉ m.map Prod.fst := by
  unfold mapGet
  rw [Option.map_eq_none', List.find?_eq_none]
  constructor
  · intro h hmem
    rcases List.mem_map.mp hmem with ⟨p, hp, hpk⟩
    exact (h p hp) (decide_eq_true hpk)
  · intro h p hp hdec
    exact h (List.mem_map.mpr ⟨p, hp, of_decide_eq_true hdec⟩)

theorem mapGet_eq_some_mem {m : Pool} {k : String} {v : polledPayment}
    (h : mapGet m k = some v) : (k, v) ∈ m := by
  unfold mapGet at h
  cases hf : m.find? (fun q => q.1 = k) with
  | none => rw [hf] at h; cases h
  | some q =>
      rw [hf] at h
      have hq0 := List.find?_some hf
      have hq : q.1 = k := by simpa using hq0
      have hm : q ∈ m := List.mem_of_find?_eq_some hf
      have hv : q.2 = v := by simpa using h
      have hqe : (k, v) = q := by
        cases q
        simp only at hq hv
        rw [← hq, ← hv]
      rw [hqe]
      exact hm

theorem mem_mapGet_of_nodup {m : Pool} {k : String} {v : polledPayment}
    (hnd : (m.map Prod.fst).Nodup) (hmem : (k, v) ∈ m) : mapGet m k = some v := by
  induction m with
  | nil => cases hmem
  | cons p rest ih =>
      rw [List.map_cons] at hnd
      have hnd' := List.nodup_cons.mp hnd
      rcases List.mem_cons.mp hmem with h | h
      · subst h
        exact mapGet_cons_self
      · have hne : ¬ (p.1 = k) := by
          intro he
          exact hnd'.1 (he ▸ List.mem_map.mpr ⟨(k, v), h, rfl⟩)
        rw [mapGet_cons_ne hne]
        exact ih hnd'.2 h

theorem nodup_keys_unique {m : Pool} {k : String} {v w : polledPayment}
    (hnd : (m.map Prod.fst).Nodup) (hv : (k, v) ∈ m) (hw : (k, w) ∈ m) : v = w := by
  have h1 := mem_mapGet_of_nodup hnd hv
  have h2 := mem_mapGet_of_nodup hnd hw
  rw [h1] at h2
  injection h2

theorem nodup_keys_mapInsert (m : Pool) (k : String) (v : polledPayment)
    (hnd : (m.map Prod.fst).Nodup) : ((mapInsert m k v).map Prod.fst).Nodup := by
  unfold mapInsert
  rw [List.map_cons]
  refine List.nodup_cons.mpr ⟨?_, ?_⟩
  · intro hmem
    rcases List.mem_map.mp hmem with ⟨p, hp, hpk⟩
    have hf := List.mem_filter.mp hp
    have : ¬ (p.1 = k) := by simpa using hf.2
    exact this hpk
  · exact List.Nodup.sublist ((List.filter_sublist _).map Prod.fst) hnd

theorem copyLoop_get_not_mem {k : String} :
    ∀ (l : List (String × polledPayment)) (acc : Pool),
      k ∉ l.map Prod.fst → mapGet (copyLoop l acc) k = mapGet acc k := by
  intro l
  induction l with
  | nil => intro acc _; rfl
  | cons p rest ih =>
      intro acc hk
      rw [List.map_cons] at hk
      have hk1 : k ≠ p.1 := fun h => hk (h ▸ List.mem_cons_self _ _)
      have hk2 : k ∉ rest.map Prod.fst := fun h => hk (List.mem_cons_of_mem _ h)
      show mapGet (copyLoop rest (mapInsert acc p.1 p.2)) k = mapGet acc k
      rw [ih _ hk2, mapGet_mapInsert, if_neg hk1]

theorem copyLoop_get_mem {k : String} {v : polledPayment} :
    ∀ (l : List (String × polledPayment)) (acc : Pool),
      (l.map Prod.fst).Nodup → (k, v) ∈ l → mapGet (copyLoop l acc) k = some v := by
  intro l
  induction l with
  | nil => intro acc _ h; cases h
  | cons p rest ih =>
      intro acc hnd hmem
      rw [List.map_cons] at hnd
      have hnd' := List.nodup_cons.mp hnd
      rcases List.mem_cons.mp hmem with h | h
      · subst h
        have hk : k ∉ rest.map Prod.fst := hnd'.1
        show mapGet (copyLoop rest (mapInsert acc k v)) k = some v
        rw [copyLoop_get_not_mem rest _ hk, mapGet_mapInsert, if_pos rfl]
      · exact ih _ hnd'.2 h

theorem createPolledPaymentsCopy_get (m : Pool) (hnd : (m.map Prod.fst).Nodup)
    (k : String) : mapGet (createPolledPaymentsCopy m) k = mapGet m k := by
  unfold createPolledPaymentsCopy
  cases h : mapGet m k with
  | none =>
      have hk : k ∉ m.map Prod.fst := mapGet_eq_none_iff.mp h
      rw [copyLoop_get_not_mem m [] hk]
      rfl
  | some v =>
      exact copyLoop_get_mem m [] hnd (mapGet_eq_some_mem h)

/-! ### Branch equations for the reconciliation loop body -/

theorem processEntry_fetch_shutdown {env : Env} {t : String} {pp : polledPayment}
    (h : env.getInvoiceByToken t = .error DbErr.shutdown) :
    processEntry env t pp =
      { events := [.getInvoice t (.error DbErr.shutdown)], cont := false, removed := [] } := by
  unfold processEntry
  rw [h]
  rfl

theorem processEntry_fetch_other {env : Env} {t : String} {pp : polledPayment}
    (h : env.getInvoiceByToken t = .error DbErr.other) :
    processEntry env t pp =
      { events := [.getInvoice t (.error DbErr.other)], cont := true, removed := [] } := by
  unfold processEntry
  rw [h]
  simp

theorem processEntry_paid {env : Env} {t : String} {pp : polledPayment} {invoice : Invoice}
    (hf : env.getInvoiceByToken t = .ok invoice)
    (hp : invoice.status = InvoiceStatusT.paid) :
    processEntry env t pp =
      { events := [.getInvoice t (.ok invoice)], cont := true, removed := [t] } := by
  unfold processEntry
  rw [hf]
  simp [hp]

theorem processEntry_expired {env : Env} {t : String} {pp : polledPayment} {invoice : Invoice}
    (hf : env.getInvoiceByToken t = .ok invoice)
    (hp : ¬ (invoice.status = InvoiceStatusT.paid))
    (he : pollHasExpired env.now pp.pollExpiry = true) :
    processEntry env t pp =
      { events := [.getInvoice t (.ok invoice)], cont := true, removed := [invoice.token] } := by
  unfold processEntry
  rw [hf]
  simp [hp, he]

theorem processEntry_tx_error {env : Env} {t : String} {pp : polledPayment}
    {invoice : Invoice} {e : Unit}
    (hf : env.getInvoiceByToken t = .ok invoice)
    (hp : ¬ (invoice.status = InvoiceStatusT.paid))
    (he : pollHasExpired env.now pp.pollExpiry = false)
    (htx : env.fetchTx pp.address pp.amount pp.txNotBefore env.minConfirmations = .error e) :
    processEntry env t pp =
      { events := [.getInvoice t (.ok invoice),
          .fetchTx pp.address pp.amount pp.txNotBefore env.minConfirmations (.error e)],
        cont := true, removed := [] } := by
  unfold processEntry
  rw [hf]
  simp [hp, he, htx]

theorem processEntry_pending {env : Env} {t : String} {pp : polledPayment} {invoice : Invoice}
    (hf : env.getInvoiceByToken t = .ok invoice)
    (hp : ¬ (invoice.status = InvoiceStatusT.paid))
    (he : pollHasExpired env.now pp.pollExpiry = false)
    (htx : env.fetchTx pp.address pp.amount pp.txNotBefore env.minConfirmations = .ok "") :
    processEntry env t pp =
      { events := [.getInvoice t (.ok invoice),
          .fetchTx pp.address pp.amount pp.txNotBefore env.minConfirmations (.ok ""), .sleep],
        cont := true, removed := [] } := by
  unfold processEntry
  rw [hf]
  simp [hp, he, htx]

theorem processEntry_settled {env : Env} {t : String} {pp : polledPayment}
    {invoice : Invoice} {tx : String}
    (hf : env.getInvoiceByToken t = .ok invoice)
    (hp : ¬ (invoice.status = InvoiceStatusT.paid))
    (he : pollHasExpired env.now pp.pollExpiry = false)
    (htx : env.fetchTx pp.address pp.amount pp.txNotBefore env.minConfirmations = .ok tx)
    (htxe : ¬ (tx = ""))
    (hupd : env.updateInvoice { invoice with status := InvoiceStatusT.paid } = none) :
    processEntry env t pp =
      { events := [.getInvoice t (.ok invoice),
          .fetchTx pp.address pp.amount pp.txNotBefore env.minConfirmations (.ok tx),
          .updateInvoice { invoice with status := InvoiceStatusT.paid } none, .sleep],
        cont := true, removed := [t] } := by
  unfold processEntry
  rw [hf]
  simp [hp, he, htx, htxe, hupd]

theorem processEntry_update_shutdown {env : Env} {t : String} {pp : polledPayment}
    {invoice : Invoice} {tx : String}
    (hf : env.getInvoiceByToken t = .ok invoice)
    (hp : ¬ (invoice.status = InvoiceStatusT.paid))
    (he : pollHasExpired env.now pp.pollExpiry = false)
    (htx : env.fetchTx pp.address pp.amount pp.txNotBefore env.minConfirmations = .ok tx)
    (htxe : ¬ (tx = ""))
    (hupd : env.updateInvoice { invoice with status := InvoiceStatusT.paid }
      = some DbErr.shutdown) :
    processEntry env t pp =
      { events := [.getInvoice t (.ok invoice),
          .fetchTx pp.address pp.amount pp.txNotBefore env.minConfirmations (.ok tx),
          .updateInvoice { invoice with status := InvoiceStatusT.paid } (some DbErr.shutdown)],
        cont := false, removed := [] } := by
  unfold processEntry
  rw [hf]
  simp [hp, he, htx, htxe, hupd]

theorem processEntry_update_other {env : Env} {t : String} {pp : polledPayment}
    {invoice : Invoice} {tx : String}
    (hf : env.getInvoiceByToken t = .ok invoice)
    (hp : ¬ (invoice.status = InvoiceStatusT.paid))
    (he : pollHasExpired env.now pp.pollExpiry = false)
    (htx : env.fetchTx pp.address pp.amount pp.txNotBefore env.minConfirmations = .ok tx)
    (htxe : ¬ (tx = ""))
    (hupd : env.updateInvoice { invoice with status := InvoiceStatusT.paid }
      = some DbErr.other) :
    processEntry env t pp =
      { events := [.getInvoice t (.ok invoice),
          .fetchTx pp.address pp.amount pp.txNotBefore env.minConfirmations (.ok tx),
          .updateInvoice { invoice with status := InvoiceStatusT.paid } (some DbErr.other)],
        cont := true, removed := [] } := by
  unfold processEntry
  rw [hf]
  simp [hp, he, htx, htxe, hupd]

theorem processEntry_cont_eq (env : Env) (t : String) (pp : polledPayment) :
    (processEntry env t pp).cont = !(triggersShutdown env t pp) := by
  unfold processEntry triggersShutdown
  cases hf : env.getInvoiceByToken t with
  | error e =>
      by_cases he : e = DbErr.shutdown <;> simp [he]
  | ok invoice =>
      by_cases hp : invoice.status = InvoiceStatusT.paid
      · simp [hp]
      · cases hex : pollHasExpired env.now pp.pollExpiry with
        | true => simp [hp, hex]
        | false =>
            cases htx : env.fetchTx pp.address pp.amount pp.txNotBefore env.minConfirmations with
            | error e => simp [hp, hex, htx]
            | ok tx =>
                by_cases htxe : tx = ""
                · simp [hp, hex, htx, htxe]
                · cases hupd : env.updateInvoice { invoice with status := InvoiceStatusT.paid } with
                  | none => simp [hp, hex, htx, htxe, hupd]
                  | some e2 =>
                      by_cases he2 : e2 = DbErr.shutdown <;>
                        simp [hp, hex, htx, htxe, hupd, he2]

/-! ### Pass-level lemmas for `checkForInvoicePayments` -/

theorem checkFIP_nil (env : Env) : checkForInvoicePayments env [] = (true, []) := rfl

theorem checkFIP_cons (env : Env) (t : String) (pp : polledPayment)
    (rest : List (String × polledPayment)) :
    checkForInvoicePayments env ((t, pp) :: rest) =
      if (processEntry env t pp).cont then
        match checkForInvoicePayments env rest with
        | (true, toks) => (true, (processEntry env t pp).removed ++ toks)
        | (false, _) => (false, [])
      else (false, []) := rfl

theorem checkFIP_shape (env : Env) (snap : List (String × polledPayment)) :
    (checkForInvoicePayments env snap).1 = true ∨
      checkForInvoicePayments env snap = (false, []) := by
  induction snap with
  | nil => left; rfl
  | cons q rest ih =>
      obtain ⟨t, pp⟩ := q
      rw [checkFIP_cons]
      by_cases hc : (processEntry env t pp).cont = true
      · rw [if_pos hc]
        cases hr : checkForInvoicePayments env rest with
        | mk b toks =>
            cases b
            · right; rfl
            · left; rfl
      · rw [if_neg hc]
        right
        rfl

theorem checkFIP_cons_true (env : Env) (t : String) (pp : polledPayment)
    (rest : List (String × polledPayment))
    (hc : (processEntry env t pp).cont = true)
    (hr1 : (checkForInvoicePayments env rest).1 = true) :
    checkForInvoicePayments env ((t, pp) :: rest) =
      (true, (processEntry env t pp).removed ++ (checkForInvoicePayments env rest).2) := by
  rw [checkFIP_cons, if_pos hc]
  cases hr : checkForInvoicePayments env rest with
  | mk b toks =>
      rw [hr] at hr1
      cases b
      · cases hr1
      · rfl

theorem checkFIP_cons_rest_false (env : Env) (t : String) (pp : polledPayment)
    (rest : List (String × polledPayment))
    (hc : (processEntry env t pp).cont = true)
    (hr1 : (checkForInvoicePayments env rest).1 = false) :
    checkForInvoicePayments env ((t, pp) :: rest) = (false, []) := by
  rw [checkFIP_cons, if_pos hc]
  cases hr : checkForInvoicePayments env rest with
  | mk b toks =>
      rw [hr] at hr1
      cases b
      · rfl
      · cases hr1

theorem checkFIP_cons_head_stop (env : Env) (t : String) (pp : polledPayment)
    (rest : List (String × polledPayment))
    (hc : ¬ ((processEntry env t pp).cont = true)) :
    checkForInvoicePayments env ((t, pp) :: rest) = (false, []) := by
  rw [checkFIP_cons, if_neg hc]

theorem checkFIP_cont_false_iff (env : Env) (snap : List (String × polledPayment)) :
    (checkForInvoicePayments env snap).1 = false ↔
      ∃ p ∈ snap, triggersShutdown env p.1 p.2 = true := by
  induction snap with
  | nil => simp [checkFIP_nil]
  | cons q rest ih =>
      obtain ⟨t, pp⟩ := q
      have hpe := processEntry_cont_eq env t pp
      by_cases hts : triggersShutdown env t pp = true
      · have hc : ¬ ((processEntry env t pp).cont = true) := by
          rw [hpe, hts]
          simp
        rw [checkFIP_cons_head_stop env t pp rest hc]
        simp only [List.mem_cons]
        constructor
        · intro _
          exact ⟨(t, pp), Or.inl rfl, hts⟩
        · intro _
          trivial
      · have hts' : triggersShutdown env t pp = false := by
          revert hts
          cases triggersShutdown env t pp <;> simp
        have hc : (processEntry env t pp).cont = true := by
          rw [hpe, hts']
          rfl
        cases hb : (checkForInvoicePayments env rest).1 with
        | false =>
            rw [checkFIP_cons_rest_false env t pp rest hc hb]
            simp only [List.mem_cons]
            constructor
            · intro _
              rcases ih.mp hb with ⟨p, hp, htr⟩
              exact ⟨p, Or.inr hp, htr⟩
            · intro _
              trivial
        | true =>
            rw [checkFIP_cons_true env t pp rest hc hb]
            simp only [List.mem_cons]
            constructor
            · intro h
              simp at h
            · rintro ⟨p, hp | hp, htr⟩
              · subst hp
                exact absurd htr hts
              · exfalso
                have h2 := ih.mpr ⟨p, hp, htr⟩
                rw [hb] at h2
                simp at h2

theorem processEntry_removed_cases (env : Env) (t : String) (pp : polledPayment)
    (hwb : WellBehavedStore env) :
    (processEntry env t pp).removed = [] ∨ (processEntry env t pp).removed = [t] := by
  cases hf : env.getInvoiceByToken t with
  | error e =>
      cases e
      · rw [processEntry_fetch_shutdown hf]
        left
        rfl
      · rw [processEntry_fetch_other hf]
        left
        rfl
  | ok invoice =>
      have htok : invoice.token = t := hwb t invoice hf
      by_cases hp : invoice.status = InvoiceStatusT.paid
      · rw [processEntry_paid hf hp]
        right
        rfl
      · cases hex : pollHasExpired env.now pp.pollExpiry with
        | true =>
            rw [processEntry_expired hf hp hex]
            right
            rw [htok]
        | false =>
            cases htx : env.fetchTx pp.address pp.amount pp.txNotBefore env.minConfirmations with
            | error e =>
                rw [processEntry_tx_error hf hp hex htx]
                left
                rfl
            | ok tx =>
                by_cases htxe : tx = ""
                · subst htxe
                  rw [processEntry_pending hf hp hex htx]
                  left
                  rfl
                · cases hupd : env.updateInvoice { invoice with status := InvoiceStatusT.paid } with
                  | none =>
                      rw [processEntry_settled hf hp hex htx htxe hupd]
                      right
                      rfl
                  | some e2 =>
                      cases e2
                      · rw [processEntry_update_shutdown hf hp hex htx htxe hupd]
                        left
                        rfl
                      · rw [processEntry_update_other hf hp hex htx htxe hupd]
                        left
                        rfl

theorem checkFIP_mem_removed (env : Env) (hwb : WellBehavedStore env) :
    ∀ (snap : List (String × polledPayment)) (x : String),
      x ∈ (checkForInvoicePayments env snap).2 →
      ∃ pp, (x, pp) ∈ snap ∧ (processEntry env x pp).removed = [x] := by
  intro snap
  induction snap with
  | nil =>
      intro x hx
      simp [checkFIP_nil] at hx
  | cons q rest ih =>
      obtain ⟨t, pp⟩ := q
      intro x hx
      rw [checkFIP_cons] at hx
      by_cases hc : (processEntry env t pp).cont = true
      · rw [if_pos hc] at hx
        cases hr : checkForInvoicePayments env rest with
        | mk b toks =>
            rw [hr] at hx
            cases b
            · simp at hx
            · rcases List.mem_append.mp hx with hh | hh
              · rcases processEntry_removed_cases env t pp hwb with h0 | h1
                · rw [h0] at hh
                  cases hh
                · rw [h1] at hh
                  have hxt : x = t := by simpa using hh
                  subst hxt
                  exact ⟨pp, List.mem_cons_self _ _, h1⟩
              · rcases ih x (by rw [hr]; exact hh) with ⟨pp', hmem, hrem⟩
                exact ⟨pp', List.mem_cons_of_mem _ hmem, hrem⟩
      · rw [if_neg hc] at hx
        simp at hx

theorem checkFIP_removed_of_mem (env : Env) :
    ∀ (snap : List (String × polledPayment)) (t : String) (pp : polledPayment) (x : String),
      (t, pp) ∈ snap → (checkForInvoicePayments env snap).1 = true →
      (processEntry env t pp).removed = [x] →
      x ∈ (checkForInvoicePayments env snap).2 := by
  intro snap
  induction snap with
  | nil =>
      intro t pp x h
      cases h
  | cons q rest ih =>
      obtain ⟨t0, pp0⟩ := q
      intro t pp x hmem hpass hrem
      by_cases hc : (processEntry env t0 pp0).cont = true
      · cases hb : (checkForInvoicePayments env rest).1 with
        | false =>
            rw [checkFIP_cons_rest_false env t0 pp0 rest hc hb] at hpass
            simp at hpass
        | true =>
            rw [checkFIP_cons_true env t0 pp0 rest hc hb]
            rcases List.mem_cons.mp hmem with hh | hh
            · have ht : t = t0 := congrArg Prod.fst hh
              have hpp : pp = pp0 := congrArg Prod.snd hh
              subst ht
              subst hpp
              rw [hrem]
              simp
            · have hx := ih t pp x hh hb hrem
              exact List.mem_append.mpr (Or.inr hx)
      · rw [checkFIP_cons_head_stop env t0 pp0 rest hc] at hpass
        simp at hpass

/-! ### Driver lemmas for `checkForPayments` -/

theorem checkForPayments_succ (envs : Nat → Env) (fuel : Nat) (pool : Pool) :
    checkForPayments envs (fuel + 1) pool =
      match checkForInvoicePayments (envs 0) (createPolledPaymentsCopy pool) with
      | (true, toks) =>
          checkForPayments (fun i => envs (i + 1)) fuel (removeInvoicesFromPolling pool toks)
      | (false, _) => (pool, false) := rfl

theorem checkForPayments_stop (envs : Nat → Env) (fuel : Nat) (pool : Pool)
    (h : (checkForInvoicePayments (envs 0) (createPolledPaymentsCopy pool)).1 = false) :
    checkForPayments envs (fuel + 1) pool = (pool, false) := by
  rw [checkForPayments_succ]
  cases hr : checkForInvoicePayments (envs 0) (createPolledPaymentsCopy pool) with
  | mk b toks =>
      rw [hr] at h
      cases b
      · rfl
      · simp at h

theorem checkForPayments_continue (envs : Nat → Env) (fuel : Nat) (pool : Pool)
    (toks : List String)
    (h : checkForInvoicePayments (envs 0) (createPolledPaymentsCopy pool) = (true, toks)) :
    checkForPayments envs (fuel + 1) pool =
      checkForPayments (fun i => envs (i + 1)) fuel (removeInvoicesFromPolling pool toks) := by
  rw [checkForPayments_succ, h]

/-! ### Seeding lemmas for `addInvoicesForPolling` -/

theorem addPaymentsLoop_get_other {now : Int} {token k : String} (hne : k ≠ token) :
    ∀ (ps : List InvoicePayment) (acc : Pool),
      mapGet (addPaymentsLoop now token ps acc) k = mapGet acc k := by
  intro ps
  induction ps with
  | nil => intro acc; rfl
  | cons ip rest ih =>
      intro acc
      cases he : pollHasExpired now ip.pollExpiry
      · simp only [addPaymentsLoop, he, Bool.false_eq_true, if_false]
        rw [ih (addInvoiceForPolling acc token ip)]
        unfold addInvoiceForPolling
        rw [mapGet_mapInsert, if_neg hne]
      · simp only [addPaymentsLoop, he, if_true]
        exact ih acc

theorem addPaymentsLoop_all_expired {now : Int} {token : String} :
    ∀ (ps : List InvoicePayment) (acc : Pool),
      (∀ ip ∈ ps, pollHasExpired now ip.pollExpiry = true) →
      addPaymentsLoop now token ps acc = acc := by
  intro ps
  induction ps with
  | nil => intro acc _; rfl
  | cons ip rest ih =>
      intro acc hall
      have he : pollHasExpired now ip.pollExpiry = true :=
        hall ip (List.mem_cons_self _ _)
      simp only [addPaymentsLoop, he, if_true]
      exact ih acc (fun ip' h => hall ip' (List.mem_cons_of_mem _ h))

theorem addPaymentsLoop_get_some {now : Int} {token : String} :
    ∀ (ps : List InvoicePayment) (acc : Pool),
      (∃ ip ∈ ps, pollHasExpired now ip.pollExpiry = false) →
      ∃ ip ∈ ps, pollHasExpired now ip.pollExpiry = false ∧
        mapGet (addPaymentsLoop now token ps acc) token = some (toPolledPayment ip) := by
  intro ps
  induction ps with
  | nil =>
      intro acc h
      rcases h with ⟨ip, h, _⟩
      cases h
  | cons ip rest ih =>
      intro acc hex
      cases he : pollHasExpired now ip.pollExpiry
      · by_cases hrest : ∃ ip' ∈ rest, pollHasExpired now ip'.pollExpiry = false
        · rcases ih (addInvoiceForPolling acc token ip) hrest with ⟨ip', hmem, hexp, hget⟩
          refine ⟨ip', List.mem_cons_of_mem _ hmem, hexp, ?_⟩
          simp only [addPaymentsLoop, he, Bool.false_eq_true, if_false]
          exact hget
        · have hall : ∀ ip' ∈ rest, pollHasExpired now ip'.pollExpiry = true := by
            intro ip' h
            cases h2 : pollHasExpired now ip'.pollExpiry
            · exact absurd ⟨ip', h, h2⟩ hrest
            · rfl
          refine ⟨ip, List.mem_cons_self _ _, he, ?_⟩
          simp only [addPaymentsLoop, he, Bool.false_eq_true, if_false]
          rw [addPaymentsLoop_all_expired rest _ hall]
          unfold addInvoiceForPolling
          rw [mapGet_mapInsert, if_pos rfl]
      · rcases hex with ⟨ip0, hm, hx⟩
        rcases List.mem_cons.mp hm with h0 | h0
        · subst h0
          rw [he] at hx
          cases hx
        · rcases ih acc ⟨ip0, h0, hx⟩ with ⟨ip', hmem, hexp, hget⟩
          refine ⟨ip', List.mem_cons_of_mem _ hmem, hexp, ?_⟩
          simp only [addPaymentsLoop, he, if_true]
          exact hget

theorem addPaymentsLoop_get_chr {now : Int} {token : String} :
    ∀ (ps : List InvoicePayment) (acc : Pool) (e : polledPayment),
      mapGet (addPaymentsLoop now token ps acc) token = some e →
      (∃ ip ∈ ps, pollHasExpired now ip.pollExpiry = false ∧ e = toPolledPayment ip)
      ∨ mapGet acc token = some e := by
  intro ps
  induction ps with
  | nil =>
      intro acc e h
      right
      exact h
  | cons ip rest ih =>
      intro acc e h
      cases he : pollHasExpired now ip.pollExpiry
      · rw [show addPaymentsLoop now token (ip :: rest) acc
            = addPaymentsLoop now token rest (addInvoiceForPolling acc token ip) by
          simp only [addPaymentsLoop, he, Bool.false_eq_true, if_false]] at h
        rcases ih _ e h with hleft | hright
        · rcases hleft with ⟨ip', hmem, hexp, hval⟩
          exact Or.inl ⟨ip', List.mem_cons_of_mem _ hmem, hexp, hval⟩
        · unfold addInvoiceForPolling at hright
          rw [mapGet_mapInsert, if_pos rfl] at hright
          have : e = toPolledPayment ip := by
            injection hright with hh
            exact hh.symm
          exact Or.inl ⟨ip, List.mem_cons_self _ _, he, this⟩
      · rw [show addPaymentsLoop now token (ip :: rest) acc
            = addPaymentsLoop now token rest acc by
          simp only [addPaymentsLoop, he, if_true]] at h
        rcases ih acc e h with hleft | hright
        · rcases hleft with ⟨ip', hmem, hexp, hval⟩
          exact Or.inl ⟨ip', List.mem_cons_of_mem _ hmem, hexp, hval⟩
        · exact Or.inr hright

theorem addPaymentsLoop_get_mono {now : Int} {token : String} :
    ∀ (ps : List InvoicePayment) (acc : Pool) (k : String),
      (mapGet acc k).isSome = true →
      (mapGet (addPaymentsLoop now token ps acc) k).isSome = true := by
  intro ps
  induction ps with
  | nil => intro acc k h; exact h
  | cons ip rest ih =>
      intro acc k h
      cases he : pollHasExpired now ip.pollExpiry
      · simp only [addPaymentsLoop, he, Bool.false_eq_true, if_false]
        apply ih
        unfold addInvoiceForPolling
        rw [mapGet_mapInsert]
        by_cases hk : k = token
        · rw [if_pos hk]; rfl
        · rw [if_neg hk]; exact h
      · simp only [addPaymentsLoop, he, if_true]
        exact ih acc k h

theorem addInvoicesLoop_get_mono {now : Int} :
    ∀ (invs : List Invoice) (acc : Pool) (k : String),
      (mapGet acc k).isSome = true →
      (mapGet (addInvoicesLoop now invs acc) k).isSome = true := by
  intro invs
  induction invs with
  | nil => intro acc k h; exact h
  | cons inv rest ih =>
      intro acc k h
      simp only [addInvoicesLoop]
      exact ih _ k (addPaymentsLoop_get_mono inv.payments acc k h)

theorem addInvoicesLoop_get_chr {now : Int} {t : String} :
    ∀ (invs : List Invoice) (acc : Pool) (e : polledPayment),
      mapGet (addInvoicesLoop now invs acc) t = some e →
      (∃ inv ∈ invs, inv.token = t ∧ ∃ ip ∈ inv.payments,
          pollHasExpired now ip.pollExpiry = false ∧ e = toPolledPayment ip)
      ∨ mapGet acc t = some e := by
  intro invs
  induction invs with
  | nil =>
      intro acc e h
      right
      exact h
  | cons inv rest ih =>
      intro acc e h
      simp only [addInvoicesLoop] at h
      rcases ih _ e h with hleft | hright
      · rcases hleft with ⟨inv', hmem, htok, hip⟩
        exact Or.inl ⟨inv', List.mem_cons_of_mem _ hmem, htok, hip⟩
      · by_cases htok : inv.token = t
        · subst htok
          rcases addPaymentsLoop_get_chr inv.payments acc e hright with hl | hr
          · rcases hl with ⟨ip, hmem, hexp, hval⟩
            exact Or.inl ⟨inv, List.mem_cons_self _ _, rfl, ip, hmem, hexp, hval⟩
          · exact Or.inr hr
        · rw [addPaymentsLoop_get_other (fun hh => htok hh.symm) inv.payments acc] at hright
          exact Or.inr hright

theorem addInvoicesLoop_get_isSome {now : Int} {t : String} :
    ∀ (invs : List Invoice) (acc : Pool),
      (∃ inv ∈ invs, inv.token = t ∧ ∃ ip ∈ inv.payments,
          pollHasExpired now ip.pollExpiry = false) →
      (mapGet (addInvoicesLoop now invs acc) t).isSome = true := by
  intro invs
  induction invs with
  | nil =>
      intro acc h
      rcases h with ⟨inv, h, _⟩
      cases h
  | cons inv rest ih =>
      intro acc h
      rcases h with ⟨inv', hmem, htok, hips⟩
      rcases List.mem_cons.mp hmem with h0 | h0
      · subst h0
        subst htok
        simp only [addInvoicesLoop]
        apply addInvoicesLoop_get_mono
        rcases addPaymentsLoop_get_some inv'.payments acc hips with ⟨ip, _, _, hget⟩
        rw [hget]
        rfl
      · simp only [addInvoicesLoop]
        exact ih _ ⟨inv', h0, htok, hips⟩

/-! ### Claim theorems -/

/-- C1: for every snapshot entry whose invoice fetch succeeds with a
status other than Paid, whose expiry has not passed, for which the oracle
returns a non-empty transaction id with no error and the store update
succeeds, a completed reconciliation pass includes the entry's token in
the removal list, and the entry's processing issued a successful
`UpdateInvoice` call carrying the invoice with status set to Paid. -/
theorem C1_settled_entry_removed_and_paid (env : Env)
    (snap : List (String × polledPayment)) (t : String) (pp : polledPayment)
    (invoice : Invoice) (tx : String)
    (hmem : (t, pp) ∈ snap)
    (hf : env.getInvoiceByToken t = .ok invoice)
    (hp : ¬ (invoice.status = InvoiceStatusT.paid))
    (he : pollHasExpired env.now pp.pollExpiry = false)
    (htx : env.fetchTx pp.address pp.amount pp.txNotBefore env.minConfirmations = .ok tx)
    (htxe : ¬ (tx = ""))
    (hupd : env.updateInvoice { invoice with status := InvoiceStatusT.paid } = none)
    (hpass : (checkForInvoicePayments env snap).1 = true) :
    t ∈ (checkForInvoicePayments env snap).2 ∧
    Event.updateInvoice { invoice with status := InvoiceStatusT.paid } none
      ∈ (processEntry env t pp).events := by
  have hpe := processEntry_settled hf hp he htx htxe hupd
  constructor
  · exact checkFIP_removed_of_mem env snap t pp t hmem hpass (by rw [hpe])
  · rw [hpe]
    simp

/-- Witness for C1 at the spec's scenario entry under `envSettle`. -/
theorem C1_witness :
    "abc" ∈ (checkForInvoicePayments envSettle [("abc", ppA)]).2 ∧
    Event.updateInvoice { invA with status := InvoiceStatusT.paid } none
      ∈ (processEntry envSettle "abc" ppA).events :=
  C1_settled_entry_removed_and_paid envSettle [("abc", ppA)] "abc" ppA invA "txid123"
    (List.mem_cons_self _ _) rfl (by decide) rfl rfl (by decide) rfl rfl

/-- C2: the pass aborts with `continue = false` exactly when some entry's
store access (invoice fetch, or the settlement update) returned the
Shutdown sentinel; a shutdown entry aborts the pass immediately, ignoring
all remaining entries; the driver exits permanently (pool untouched) when
the pass reports shutdown, and otherwise runs another cycle. -/
theorem C2_stop_iff_store_shutdown :
    (∀ (env : Env) (snap : List (String × polledPayment)),
        (checkForInvoicePayments env snap).1 = false ↔
          ∃ p ∈ snap, triggersShutdown env p.1 p.2 = true)
    ∧ (∀ (env : Env) (t : String) (pp : polledPayment)
        (rest : List (String × polledPayment)),
        triggersShutdown env t pp = true →
        checkForInvoicePayments env ((t, pp) :: rest) = (false, []))
    ∧ (∀ (envs : Nat → Env) (fuel : Nat) (pool : Pool),
        (checkForInvoicePayments (envs 0) (createPolledPaymentsCopy pool)).1 = false →
        checkForPayments envs (fuel + 1) pool = (pool, false))
    ∧ (∀ (envs : Nat → Env) (fuel : Nat) (pool : Pool) (toks : List String),
        checkForInvoicePayments (envs 0) (createPolledPaymentsCopy pool) = (true, toks) →
        checkForPayments envs (fuel + 1) pool =
          checkForPayments (fun i => envs (i + 1)) fuel
            (removeInvoicesFromPolling pool toks)) := by
  refine ⟨checkFIP_cont_false_iff, ?_, checkForPayments_stop, checkForPayments_continue⟩
  intro env t pp rest hts
  have hc : ¬ ((processEntry env t pp).cont = true) := by
    rw [processEntry_cont_eq, hts]
    simp
  exact checkFIP_cons_head_stop env t pp rest hc

/-- Witness for C2: a fetch shutdown on the first entry aborts the pass
with an unprocessed entry remaining. -/
theorem C2_witness :
    checkForInvoicePayments envDbDown [("abc", ppA), ("zzz", ppA)] = (false, []) :=
  C2_stop_iff_store_shutdown.2.1 envDbDown "abc" ppA [("zzz", ppA)] rfl

/-- C4: an entry whose fetched invoice is already Paid is put on the
removal list by a completed pass, and its processing makes no oracle
call. -/
theorem C4_already_paid_removed_no_oracle (env : Env)
    (snap : List (String × polledPayment)) (t : String) (pp : polledPayment)
    (invoice : Invoice)
    (hmem : (t, pp) ∈ snap)
    (hf : env.getInvoiceByToken t = .ok invoice)
    (hp : invoice.status = InvoiceStatusT.paid)
    (hpass : (checkForInvoicePayments env snap).1 = true) :
    t ∈ (checkForInvoicePayments env snap).2 ∧
    (∀ a am nb mc r, ¬ (Event.fetchTx a am nb mc r ∈ (processEntry env t pp).events)) := by
  have hpe := @processEntry_paid env t pp invoice hf hp
  constructor
  · exact checkFIP_removed_of_mem env snap t pp t hmem hpass (by rw [hpe])
  · intro a am nb mc r hin
    rw [hpe] at hin
    simp at hin

/-- Witness for C4 under `envAlreadyPaid`. -/
theorem C4_witness :
    "abc" ∈ (checkForInvoicePayments envAlreadyPaid [("abc", ppA)]).2 ∧
    (∀ a am nb mc r,
      ¬ (Event.fetchTx a am nb mc r ∈ (processEntry envAlreadyPaid "abc" ppA).events)) :=
  C4_already_paid_removed_no_oracle envAlreadyPaid [("abc", ppA)] "abc" ppA invPaidA
    (List.mem_cons_self _ _) rfl rfl rfl

/-- C8: inserting an entry for a token and immediately snapshotting the
pool yields a mapping containing that token bound to that entry, and the
snapshot is pointwise equal to the live pool it copies. -/
theorem C8_insert_then_snapshot (pool : Pool) (t : String) (e : polledPayment)
    (hnd : (pool.map Prod.fst).Nodup) :
    mapGet (createPolledPaymentsCopy (mapInsert pool t e)) t = some e ∧
    ∀ k, mapGet (createPolledPaymentsCopy pool) k = mapGet pool k := by
  constructor
  · rw [createPolledPaymentsCopy_get _ (nodup_keys_mapInsert pool t e hnd) t,
      mapGet_mapInsert, if_pos rfl]
  · intro k
    exact createPolledPaymentsCopy_get pool hnd k

/-- Witness for C8 on a one-entry pool. -/
theorem C8_witness :
    mapGet (createPolledPaymentsCopy (mapInsert [("xyz", ppExpired)] "abc" ppA)) "abc"
      = some ppA ∧
    ∀ k, mapGet (createPolledPaymentsCopy [("xyz", ppExpired)]) k
      = mapGet [("xyz", ppExpired)] k :=
  C8_insert_then_snapshot [("xyz", ppExpired)] "abc" ppA (by simp)

/-- C9: a pass that observed shutdown returns an empty removal list
(removals already decided for earlier entries are discarded), and the
driver then returns without touching the pool. -/
theorem C9_shutdown_discards_removals :
    (∀ (env : Env) (snap : List (String × polledPayment)),
        (checkForInvoicePayments env snap).1 = false →
        (checkForInvoicePayments env snap).2 = [])
    ∧ (∀ (envs : Nat → Env) (fuel : Nat) (pool : Pool),
        (checkForInvoicePayments (envs 0) (createPolledPaymentsCopy pool)).1 = false →
        checkForPayments envs (fuel + 1) pool = (pool, false)) := by
  constructor
  · intro env snap h
    rcases checkFIP_shape env snap with h1 | h1
    · rw [h1] at h
      cases h
    · rw [h1]
  · intro envs fuel pool h
    exact checkForPayments_stop envs fuel pool h

/-- Witness for C9: under a shut-down store the removal list is empty and
the driver stops with the pool unchanged. -/
theorem C9_witness :
    (checkForInvoicePayments envDbDown [("abc", ppA)]).2 = [] ∧
    checkForPayments (fun _ => envDbDown) 3 [("abc", ppA)] = ([("abc", ppA)], false) :=
  ⟨C9_shutdown_discards_removals.1 envDbDown [("abc", ppA)] rfl,
   C9_shutdown_discards_removals.2 (fun _ => envDbDown) 2 [("abc", ppA)] rfl⟩

/-- C10: the expiry test is strictly "after" — `pollHasExpired` holds iff
the expiry is strictly below the current time, so an entry whose expiry
equals the current second is not expired; such an entry is inserted at
startup seeding, and reconciliation still queries the oracle for it. -/
theorem C10_expiry_strict :
    (∀ now e : Int, pollHasExpired now e = true ↔ e < now)
    ∧ (∀ now : Int, pollHasExpired now now = false)
    ∧ (∀ (now : Int) (invs : List Invoice) (inv : Invoice) (ip : InvoicePayment),
        inv ∈ invs → ip ∈ inv.payments → ip.pollExpiry = now →
        (mapGet (addInvoicesLoop now invs []) inv.token).isSome = true)
    ∧ (∀ (env : Env) (t : String) (pp : polledPayment) (invoice : Invoice),
        pp.pollExpiry = env.now →
        env.getInvoiceByToken t = .ok invoice →
        ¬ (invoice.status = InvoiceStatusT.paid) →
        ∃ r, Event.fetchTx pp.address pp.amount pp.txNotBefore env.minConfirmations r
          ∈ (processEntry env t pp).events) := by
  refine ⟨?_, ?_, ?_, ?_⟩
  · intro now e
    simp [pollHasExpired]
  · intro now
    simp [pollHasExpired]
  · intro now invs inv ip hinv hip hexp
    apply addInvoicesLoop_get_isSome
    exact ⟨inv, hinv, rfl, ip, hip, by simp [pollHasExpired, hexp]⟩
  · intro env t pp invoice hexp hf hp
    have he : pollHasExpired env.now pp.pollExpiry = false := by
      simp [pollHasExpired, hexp]
    cases htx : env.fetchTx pp.address pp.amount pp.txNotBefore env.minConfirmations with
    | error e =>
        refine ⟨.error e, ?_⟩
        rw [processEntry_tx_error hf hp he htx]
        simp
    | ok tx =>
        by_cases htxe : tx = ""
        · subst htxe
          refine ⟨.ok "", ?_⟩
          rw [processEntry_pending hf hp he htx]
          simp
        · cases hupd : env.updateInvoice { invoice with status := InvoiceStatusT.paid } with
          | none =>
              refine ⟨.ok tx, ?_⟩
              rw [processEntry_settled hf hp he htx htxe hupd]
              simp
          | some e2 =>
              cases e2
              · refine ⟨.ok tx, ?_⟩
                rw [processEntry_update_shutdown hf hp he htx htxe hupd]
                simp
              · refine ⟨.ok tx, ?_⟩
                rw [processEntry_update_other hf hp he htx htxe hupd]
                simp

/-- Witness for C10: at `envEdge` the time equals `ppA`'s expiry second
and the oracle is still queried. -/
theorem C10_witness :
    ∃ r, Event.fetchTx ppA.address ppA.amount ppA.txNotBefore envEdge.minConfirmations r
      ∈ (processEntry envEdge "abc" ppA).events :=
  C10_expiry_strict.2.2.2 envEdge "abc" ppA invA rfl rfl (by decide)

/-- C3 counterexample: an entry whose poll expiry is in the past but
whose invoice fetch fails with a transient error is NOT put on the
removal list — the expiry check only runs after a successful fetch, so
the claim is false as stated. -/
theorem C3_counterexample :
    pollHasExpired envFetchErr.now ppExpired.pollExpiry = true ∧
    ¬ ("abc" ∈ (checkForInvoicePayments envFetchErr [("abc", ppExpired)]).2) := by
  constructor
  · rfl
  · intro h
    have hres : (checkForInvoicePayments envFetchErr [("abc", ppExpired)]).2 = [] := rfl
    rw [hres] at h
    simp at h

/-- C3 amended: for every snapshot entry whose poll expiry is in the
past, if its invoice fetch succeeds and the pass completes, the entry's
token is put on the removal list; and regardless of the fetch outcome no
store write and no oracle query occur for the entry. -/
theorem C3_expired_entry (env : Env) (snap : List (String × polledPayment))
    (t : String) (pp : polledPayment)
    (hwb : WellBehavedStore env)
    (hmem : (t, pp) ∈ snap)
    (he : pollHasExpired env.now pp.pollExpiry = true) :
    (∀ invoice, env.getInvoiceByToken t = .ok invoice →
        (checkForInvoicePayments env snap).1 = true →
        t ∈ (checkForInvoicePayments env snap).2) ∧
    (∀ inv r, ¬ (Event.updateInvoice inv r ∈ (processEntry env t pp).events)) ∧
    (∀ a am nb mc r, ¬ (Event.fetchTx a am nb mc r ∈ (processEntry env t pp).events)) := by
  refine ⟨?_, ?_, ?_⟩
  · intro invoice hf hpass
    by_cases hp : invoice.status = InvoiceStatusT.paid
    · exact checkFIP_removed_of_mem env snap t pp t hmem hpass
        (by rw [@processEntry_paid env t pp invoice hf hp])
    · refine checkFIP_removed_of_mem env snap t pp t hmem hpass ?_
      rw [processEntry_expired hf hp he]
      simp [hwb t invoice hf]
  · intro inv r hin
    cases hf : env.getInvoiceByToken t with
    | error e =>
        cases e
        · rw [processEntry_fetch_shutdown hf] at hin
          simp at hin
        · rw [processEntry_fetch_other hf] at hin
          simp at hin
    | ok invoice =>
        by_cases hp : invoice.status = InvoiceStatusT.paid
        · rw [@processEntry_paid env t pp invoice hf hp] at hin
          simp at hin
        · rw [processEntry_expired hf hp he] at hin
          simp at hin
  · intro a am nb mc r hin
    cases hf : env.getInvoiceByToken t with
    | error e =>
        cases e
        · rw [processEntry_fetch_shutdown hf] at hin
          simp at hin
        · rw [processEntry_fetch_other hf] at hin
          simp at hin
    | ok invoice =>
        by_cases hp : invoice.status = InvoiceStatusT.paid
        · rw [@processEntry_paid env t pp invoice hf hp] at hin
          simp at hin
        · rw [processEntry_expired hf hp he] at hin
          simp at hin

/-- Witness for the amended C3: an expired entry with a successful fetch
is removed under `envSettle`. -/
theorem C3_witness :
    "abc" ∈ (checkForInvoicePayments envSettle [("abc", ppExpired)]).2 :=
  (C3_expired_entry envSettle [("abc", ppExpired)] "abc" ppExpired
    (by
      intro t inv h
      by_cases ht : t = "abc"
      · subst ht
        simp [envSettle] at h
        rw [← h]
        rfl
      · simp [envSettle, ht] at h)
    (List.mem_cons_self _ _) rfl).1 invA rfl rfl

/-- C5: an entry for which the oracle reports an empty transaction id
with no error is not put on the removal list (so it stays in the pool for
the next cycle) and its processing performs no store update. -/
theorem C5_pending_entry_retained (env : Env) (snap : List (String × polledPayment))
    (t : String) (pp : polledPayment) (invoice : Invoice)
    (hwb : WellBehavedStore env)
    (hnd : (snap.map Prod.fst).Nodup)
    (hmem : (t, pp) ∈ snap)
    (hf : env.getInvoiceByToken t = .ok invoice)
    (hp : ¬ (invoice.status = InvoiceStatusT.paid))
    (he : pollHasExpired env.now pp.pollExpiry = false)
    (htx : env.fetchTx pp.address pp.amount pp.txNotBefore env.minConfirmations = .ok "") :
    ¬ (t ∈ (checkForInvoicePayments env snap).2) ∧
    (∀ inv r, ¬ (Event.updateInvoice inv r ∈ (processEntry env t pp).events)) := by
  have hpe := processEntry_pending hf hp he htx
  constructor
  · intro hin
    rcases checkFIP_mem_removed env hwb snap t hin with ⟨pp', hmem', hrem⟩
    have hppe : pp' = pp := nodup_keys_unique hnd hmem' hmem
    subst hppe
    rw [hpe] at hrem
    simp at hrem
  · intro inv r hin
    rw [hpe] at hin
    simp at hin

/-- Witness for C5 at the spec's scenario entry under `envPending`. -/
theorem C5_witness :
    ¬ ("abc" ∈ (checkForInvoicePayments envPending [("abc", ppA)]).2) ∧
    (∀ inv r, ¬ (Event.updateInvoice inv r ∈ (processEntry envPending "abc" ppA).events)) :=
  C5_pending_entry_retained envPending [("abc", ppA)] "abc" ppA invA
    (by
      intro t inv h
      by_cases ht : t = "abc"
      · subst ht
        simp [envPending, envSettle] at h
        rw [← h]
        rfl
      · simp [envPending, envSettle, ht] at h)
    (by simp) (List.mem_cons_self _ _) rfl (by decide) rfl rfl

/-- C6 counterexample: an already-paid entry is processed (and removed)
with NO sleep afterwards — the Go `continue` skips the sleep at the
bottom of the loop, so the claim that every processed entry is followed
by a sleep is false as stated. -/
theorem C6_counterexample :
    (processEntry envAlreadyPaid "abc" ppA).removed = ["abc"] ∧
    ¬ (Event.sleep ∈ (processEntry envAlreadyPaid "abc" ppA).events) := by
  constructor
  · rfl
  · intro h
    have hev : (processEntry envAlreadyPaid "abc" ppA).events
        = [Event.getInvoice "abc" (.ok invPaidA)] := rfl
    rw [hev] at h
    simp at h

/-- C6 amended: a sleep happens after processing an entry iff the entry
reached the oracle, the oracle call succeeded, and either no transaction
was found or the settlement update succeeded; entries skipped on error or
removed as already-paid or expired are not followed by a sleep. -/
theorem C6_sleep_iff (env : Env) (t : String) (pp : polledPayment) :
    Event.sleep ∈ (processEntry env t pp).events ↔
      ∃ invoice tx, env.getInvoiceByToken t = .ok invoice ∧
        ¬ (invoice.status = InvoiceStatusT.paid) ∧
        pollHasExpired env.now pp.pollExpiry = false ∧
        env.fetchTx pp.address pp.amount pp.txNotBefore env.minConfirmations = .ok tx ∧
        (tx = "" ∨ env.updateInvoice { invoice with status := InvoiceStatusT.paid } = none) := by
  cases hf : env.getInvoiceByToken t with
  | error e =>
      constructor
      · intro h
        cases e
        · rw [processEntry_fetch_shutdown hf] at h
          simp at h
        · rw [processEntry_fetch_other hf] at h
          simp at h
      · rintro ⟨invoice, tx, hf', -⟩
        exact Except.noConfusion hf'
  | ok invoice =>
      by_cases hp : invoice.status = InvoiceStatusT.paid
      · constructor
        · intro h
          rw [@processEntry_paid env t pp invoice hf hp] at h
          simp at h
        · rintro ⟨invoice', tx, hf', hp', -⟩
          injection hf' with hinv
          subst hinv
          exact absurd hp hp'
      · cases he : pollHasExpired env.now pp.pollExpiry with
        | true =>
            constructor
            · intro h
              rw [processEntry_expired hf hp he] at h
              simp at h
            · rintro ⟨invoice', tx, hf', -, he', -⟩
              exact Bool.noConfusion he'
        | false =>
            cases htx : env.fetchTx pp.address pp.amount pp.txNotBefore env.minConfirmations with
            | error e =>
                constructor
                · intro h
                  rw [processEntry_tx_error hf hp he htx] at h
                  simp at h
                · rintro ⟨invoice', tx, hf', -, -, htx', -⟩
                  exact Except.noConfusion htx'
            | ok tx =>
                by_cases htxe : tx = ""
                · subst htxe
                  constructor
                  · intro _
                    exact ⟨invoice, "", rfl, hp, rfl, rfl, Or.inl rfl⟩
                  · intro _
                    rw [processEntry_pending hf hp he htx]
                    simp
                · cases hupd : env.updateInvoice { invoice with status := InvoiceStatusT.paid } with
                  | none =>
                      constructor
                      · intro _
                        exact ⟨invoice, tx, rfl, hp, rfl, rfl, Or.inr hupd⟩
                      · intro _
                        rw [processEntry_settled hf hp he htx htxe hupd]
                        simp
                  | some e2 =>
                      have hnosleep :
                          ¬ (Event.sleep ∈ (processEntry env t pp).events) := by
                        intro h
                        cases e2
                        · rw [processEntry_update_shutdown hf hp he htx htxe hupd] at h
                          simp at h
                        · rw [processEntry_update_other hf hp he htx htxe hupd] at h
                          simp at h
                      constructor
                      · intro h
                        exact absurd h hnosleep
                      · rintro ⟨invoice', tx', hf', -, -, htx', hor⟩
                        injection hf' with hinv
                        subst hinv
                        injection htx' with htxv
                        subst htxv
                        rcases hor with h0 | h0
                        · exact absurd h0 htxe
                        · rw [hupd] at h0
                          exact Option.noConfusion h0

/-- Witness for the amended C6: the pending entry under `envPending`
sleeps. -/
theorem C6_witness :
    Event.sleep ∈ (processEntry envPending "abc" ppA).events :=
  (C6_sleep_iff envPending "abc" ppA).mpr ⟨invA, "", rfl, by decide, rfl, rfl, Or.inl rfl⟩

/-- C7: a successful startup seeding produces a pool containing exactly
the tokens of invoices having some payment whose poll expiry has not
passed, and every pool entry's value comes from such a payment row of an
invoice carrying that token. -/
theorem C7_startup_seeding (now : Int) (invoices : List Invoice) (pool : Pool)
    (hseed : addInvoicesForPolling now (.ok invoices) [] = .ok pool) (t : String) :
    ((mapGet pool t).isSome = true ↔
      ∃ inv ∈ invoices, inv.token = t ∧
        ∃ ip ∈ inv.payments, pollHasExpired now ip.pollExpiry = false) ∧
    (∀ e, mapGet pool t = some e →
      ∃ inv ∈ invoices, inv.token = t ∧
        ∃ ip ∈ inv.payments, pollHasExpired now ip.pollExpiry = false ∧
          e = toPolledPayment ip) := by
  have hpool : pool = addInvoicesLoop now invoices [] := by
    unfold addInvoicesForPolling at hseed
    injection hseed with h
    exact h.symm
  subst hpool
  constructor
  · constructor
    · intro hs
      cases hg : mapGet (addInvoicesLoop now invoices []) t with
      | none =>
          rw [hg] at hs
          cases hs
      | some e =>
          rcases addInvoicesLoop_get_chr invoices [] e hg with hl | hr
          · rcases hl with ⟨inv, hmem, htok, ip, hip, hexp, -⟩
            exact ⟨inv, hmem, htok, ip, hip, hexp⟩
          · simp [mapGet] at hr
    · intro hex
      exact addInvoicesLoop_get_isSome invoices [] hex
  · intro e hg
    rcases addInvoicesLoop_get_chr invoices [] e hg with hl | hr
    · exact hl
    · simp [mapGet] at hr

/-- Witness for C7: seeding from `invA` (live payment) and `invExp`
(expired payment) yields exactly the pool holding token "abc". -/
theorem C7_witness :
    ((mapGet [("abc", ppA)] "abc").isSome = true ↔
      ∃ inv ∈ [invA, invExp], inv.token = "abc" ∧
        ∃ ip ∈ inv.payments, pollHasExpired 2000 ip.pollExpiry = false) ∧
    (∀ e, mapGet [("abc", ppA)] "abc" = some e →
      ∃ inv ∈ [invA, invExp], inv.token = "abc" ∧
        ∃ ip ∈ inv.payments, pollHasExpired 2000 ip.pollExpiry = false ∧
          e = toPolledPayment ip) :=
  C7_startup_seeding 2000 [invA, invExp] [("abc", ppA)] rfl "abc"

end CmsPoller
